import Mathlib

namespace Console

/-!
Shallow embedding of the people-management console's CSV import/export,
profile-field, filtering and destructive-action logic, together with proofs
of the specified properties.  Strings are modelled as `List Char`; JavaScript
string primitives (`split`, `trim`, `replace`, `includes`, `toLowerCase`) are
embedded as the correspondingly named functions below.
-/

/-- Strings as character lists (the JS string value model used throughout). -/
abbrev Str := List Char

/-- JS `s.split(c)` for a one-character separator: splits on every occurrence,
keeping empty segments (`''.split(c) = ['']`). -/
def jsSplit (c : Char) : Str → List Str
  | [] => [[]]
  | x :: xs =>
    if x = c then [] :: jsSplit c xs
    else
      match jsSplit c xs with
      | [] => [[x]]
      | y :: ys => (x :: y) :: ys

/-- JS `s.trim()`: strips leading and trailing whitespace. -/
def jsTrim (s : Str) : Str :=
  ((s.dropWhile Char.isWhitespace).reverse.dropWhile Char.isWhitespace).reverse

/-- JS `s.replace(/c/g, repl)` for a one-character pattern. -/
def jsReplaceChar (c : Char) (repl : Str) (s : Str) : Str :=
  s.flatMap fun x => if x = c then repl else [x]

/-- JS `s.toLowerCase()` (ASCII-faithful). -/
def jsLower (s : Str) : Str := s.map Char.toLower

/-- JS `hay.includes(needle)` (substring containment). -/
def jsIncludes (hay needle : Str) : Bool := decide (needle <:+: hay)

/-- JS `hay.includes(c)` for a single-character needle. -/
def jsIncludesChar (hay : Str) (c : Char) : Bool := hay.contains c

/-- A character in `[a-z0-9]` (the class kept by `generateKey`'s first replace). -/
def isLowerAlnum (c : Char) : Bool :=
  (Char.ofNat 97 ≤ c && c ≤ Char.ofNat 122) || (Char.ofNat 48 ≤ c && c ≤ Char.ofNat 57)

/-- The underscore character. -/
def und : Char := Char.ofNat 95

/-- `label.replace(/[^a-z0-9]/g, '_')`. -/
def replaceNonAlnum (s : Str) : Str :=
  s.map fun c => if isLowerAlnum c then c else und

/-- `s.replace(/_+/g, '_')`: collapses every run of underscores to one. -/
def collapseUnd : Str → Str
  | [] => []
  | [a] => [a]
  | a :: b :: cs =>
    if a = und ∧ b = und then collapseUnd (b :: cs)
    else a :: collapseUnd (b :: cs)

/-- Drop one leading underscore if present (half of `replace(/^_|_$/g, '')`). -/
def dropHeadUnd (s : Str) : Str :=
  if s.head? = some und then s.tail else s

/-- `s.replace(/^_|_$/g, '')`: removes one leading and one trailing underscore. -/
def trimUnd (s : Str) : Str :=
  ((dropHeadUnd s).reverse |> dropHeadUnd).reverse

/-- `generateKey` from `ProfileFields.tsx`: lower-case the label, replace every
non-`[a-z0-9]` character by `_`, collapse underscore runs, trim the ends. -/
def generateKey (label : Str) : Str :=
  trimUnd (collapseUnd (replaceNonAlnum (jsLower label)))

/-- Adjacent characters are never both underscores. -/
def NoDoubleUnd (s : Str) : Prop :=
  s.Chain' fun a b => ¬(a = und ∧ b = und)

instance (s : Str) : Decidable (NoDoubleUnd s) := by
  unfold NoDoubleUnd; infer_instance

/-! ## JS objects as association lists -/

/-- JS object property write `o[k] = v`: update in place or append. -/
def objSet {α : Type} : List (Str × α) → Str → α → List (Str × α)
  | [], k, v => [(k, v)]
  | (k', v') :: rest, k, v =>
    if k' = k then (k, v) :: rest else (k', v') :: objSet rest k v

/-- JS object property read `o[k]` (`none` models `undefined`). -/
def objGet? {α : Type} : List (Str × α) → Str → Option α
  | [], _ => none
  | (k', v) :: rest, k => if k' = k then some v else objGet? rest k

/-- A parsed CSV data row: header → raw cell string. -/
abbrev Row := List (Str × Str)

/-- `row[csvCol]` where the program's invariant guarantees a string is bound
(see `buildRow_lookup`); unreachable misses read as the empty string. -/
def rowGet (row : Row) (k : Str) : Str := (objGet? row k).getD []

/-! ## CSV upload parsing (`handleFileUpload`) -/

/-- One cell: `v.trim().replace(/"/g, '')`. -/
def parseCell (s : Str) : Str := jsReplaceChar '"' [] (jsTrim s)

/-- The indexed `forEach` writing one row object: header at offset `i` binds
`values[index] || ''` (both a missing and an empty cell store `''`). -/
def buildRowAux (values : List Str) : Nat → Row → List Str → Row
  | _, o, [] => o
  | i, o, h :: hs => buildRowAux values (i + 1) (objSet o h (values.getD i [])) hs

/-- Builds a row object: `headers.forEach((header, index) => row[header] =
values[index] || '')`. -/
def buildRow (headers values : List Str) : Row :=
  buildRowAux values 0 [] headers

/-- `handleFileUpload` parsing: split the text into non-blank lines, take the
first as the header row, turn each remaining line into a row object.  `none`
models the "at least a header row and one data row" rejection. -/
def parseCSV (text : Str) : Option (List Str × List Row) :=
  let lines := (jsSplit '\n' text).filter fun l => !(jsTrim l).isEmpty
  match lines with
  | [] => none
  | [_] => none
  | h :: rest =>
    let headers := (jsSplit ',' h).map parseCell
    some (headers, rest.map fun line => buildRow headers ((jsSplit ',' line).map parseCell))

/-! ## Column auto-mapping -/

/-- A column mapping: CSV header → target field key (or `none`, excluded). -/
abbrev Mapping := List (Str × Option Str)

/-- The auto-mapping target proposed for one header (the if/else chain in
`handleFileUpload`). -/
def autoTarget (h : Str) : Option Str :=
  if jsIncludes (jsLower h) "first".data && jsIncludes (jsLower h) "name".data then
    some "firstName".data
  else if jsIncludes (jsLower h) "last".data && jsIncludes (jsLower h) "name".data then
    some "lastName".data
  else if jsIncludes (jsLower h) "email".data then some "email".data
  else if jsIncludes (jsLower h) "phone".data then some "phone".data
  else if jsIncludes (jsLower h) "status".data then some "status".data
  else none

/-- `headers.forEach(...)` building the `autoMapping` object (headers with no
matching pattern are left out). -/
def autoMap (headers : List Str) : Mapping :=
  headers.foldl
    (fun m h =>
      match autoTarget h with
      | some t => objSet m h (some t)
      | none => m)
    []

/-! ## Core fields and validation (`validateMapping`) -/

/-- One entry of the `coreFields` constant. -/
structure CoreField where
  key : Str
  label : Str
  required : Bool
deriving DecidableEq

/-- The `coreFields` constant of `CSVImport.tsx`. -/
def coreFields : List CoreField :=
  [⟨"firstName".data, "First Name".data, true⟩,
   ⟨"lastName".data, "Last Name".data, true⟩,
   ⟨"preferredName".data, "Preferred Name".data, false⟩,
   ⟨"email".data, "Email".data, false⟩,
   ⟨"phone".data, "Phone".data, false⟩,
   ⟨"status".data, "Status".data, true⟩]

/-- `Object.values(mapping).filter(Boolean)`: the truthy mapped targets. -/
def truthyTargets (m : Mapping) : List Str :=
  m.filterMap fun e => e.2.bind fun t => if t.isEmpty then none else some t

/-- The accepted status values. -/
def statusVals : List Str := ["active".data, "inactive".data, "visitor".data]

/-- `Required field "<label>" is not mapped`. -/
def reqErr (label : Str) : Str :=
  "Required field \"".data ++ label ++ "\" is not mapped".data

/-- `Row <n>: Invalid status "<value>". Must be active, inactive, or visitor`. -/
def statusErr (rowNum : Nat) (value : Str) : Str :=
  "Row ".data ++ (Nat.repr rowNum).data ++ ": Invalid status \"".data ++ value
    ++ "\". Must be active, inactive, or visitor".data

/-- `Row <n>: Invalid email "<value>"`. -/
def emailErr (rowNum : Nat) (value : Str) : Str :=
  "Row ".data ++ (Nat.repr rowNum).data ++ ": Invalid email \"".data ++ value ++ "\"".data

/-- The validation errors one mapping entry contributes for one row. -/
def entryErrors (rowNum : Nat) (row : Row) (e : Str × Option Str) : List Str :=
  match e.2 with
  | none => []
  | some tf =>
    let value := rowGet row e.1
    (if tf = "status".data ∧ ¬ jsLower value ∈ statusVals
     then [statusErr rowNum value] else [])
    ++ (if tf = "email".data ∧ value ≠ [] ∧ jsIncludesChar value '@' = false
        then [emailErr rowNum value] else [])

/-- The validation errors all mapping entries contribute for one row. -/
def rowErrors (m : Mapping) (rowNum : Nat) (row : Row) : List Str :=
  m.flatMap (entryErrors rowNum row)

/-- The indexed `forEach` over the previewed rows: row at offset `i` from the
start index `n` reports as row number `n + i + 1`. -/
def rowsErrors (m : Mapping) : Nat → List Row → List Str
  | _, [] => []
  | n, row :: rs => rowErrors m (n + 1) row ++ rowsErrors m (n + 1) rs

/-- The errors `validateMapping` reports for unmapped required core fields. -/
def requiredErrors (m : Mapping) : List Str :=
  (coreFields.filter (·.required)).filterMap fun f =>
    if f.key ∈ truthyTargets m then none else some (reqErr f.label)

/-- `validateMapping`: required-core-field errors, then per-row errors over the
first 5 data rows (1-based row numbers). -/
def validateMapping (m : Mapping) (rows : List Row) : List Str :=
  requiredErrors m ++ rowsErrors m 0 (rows.take 5)

/-- Claim-side condition: one mapping entry raises no validation error on a
row — a status target holds an accepted status and a non-empty email target
contains an `@`. -/
def EntryOK (row : Row) (e : Str × Option Str) : Prop :=
  (e.2 = some "status".data → jsLower (rowGet row e.1) ∈ statusVals)
  ∧ (e.2 = some "email".data → rowGet row e.1 ≠ [] → jsIncludesChar (rowGet row e.1) '@' = true)

/-- Claim-side condition: every required core field has a mapped column. -/
def RequiredMapped (m : Mapping) : Prop :=
  ∀ f ∈ coreFields, f.required = true → f.key ∈ truthyTargets m

/-- Claim-side condition: on every examined row (first 5), every column mapped
to status holds an accepted status value (case-insensitively). -/
def StatusOK (m : Mapping) (rows : List Row) : Prop :=
  ∀ row ∈ rows.take 5, ∀ e ∈ m,
    e.2 = some "status".data → jsLower (rowGet row e.1) ∈ statusVals

/-- Claim-side condition: on every examined row (first 5), every non-empty
value in a column mapped to email contains an `@`. -/
def EmailOK (m : Mapping) (rows : List Row) : Prop :=
  ∀ row ∈ rows.take 5, ∀ e ∈ m,
    e.2 = some "email".data → rowGet row e.1 ≠ [] → jsIncludesChar (rowGet row e.1) '@' = true

/-! ## Import (`handleImport`) -/

/-- The person payload passed to `Person.create`. -/
structure Payload where
  firstName : Option Str
  lastName : Option Str
  preferredName : Option Str
  email : Option Str
  phone : Option Str
  status : Str
  fields : List (Str × Str)
deriving DecidableEq

/-- The initial payload: `{ status: 'active', fields: {} }`. -/
def basePayload : Payload :=
  { firstName := none, lastName := none, preferredName := none, email := none,
    phone := none, status := "active".data, fields := [] }

/-- `personData[targetField] = value` for a core target field. -/
def setCore (pd : Payload) (key v : Str) : Payload :=
  if key = "firstName".data then { pd with firstName := some v }
  else if key = "lastName".data then { pd with lastName := some v }
  else if key = "preferredName".data then { pd with preferredName := some v }
  else if key = "email".data then { pd with email := some v }
  else if key = "phone".data then { pd with phone := some v }
  else if key = "status".data then { pd with status := v }
  else pd

/-- One mapping entry applied to the payload under construction. -/
def applyEntry (row : Row) (pd : Payload) (e : Str × Option Str) : Payload :=
  match e.2 with
  | none => pd
  | some tf =>
    let v := rowGet row e.1
    if tf ∈ coreFields.map (·.key) then setCore pd tf v
    else { pd with fields := objSet pd.fields tf v }

/-- The payload `handleImport` builds for one row. -/
def buildPayload (m : Mapping) (row : Row) : Payload :=
  m.foldl (applyEntry row) basePayload

/-- Whether the top-level payload attribute named by a core-field key carries a
value (`status` always does: it is initialised to "active"). -/
def coreAttrSet (pd : Payload) (key : Str) : Bool :=
  if key = "firstName".data then pd.firstName.isSome
  else if key = "lastName".data then pd.lastName.isSome
  else if key = "preferredName".data then pd.preferredName.isSome
  else if key = "email".data then pd.email.isSome
  else if key = "phone".data then pd.phone.isSome
  else if key = "status".data then true
  else false

/-- The import loop: each row issues one `Person.create` call; `ok i` tells
whether the call for row `i` succeeds.  Returns (successCount, errorCount,
create calls in order). -/
def runImport (m : Mapping) (ok : Nat → Bool) : Nat → List Row → Nat × Nat × List Payload
  | _, [] => (0, 0, [])
  | i, row :: rs =>
    let p := buildPayload m row
    let r := runImport m ok (i + 1) rs
    if ok i then (r.1 + 1, r.2.1, p :: r.2.2) else (r.1, r.2.1 + 1, p :: r.2.2)

/-- `handleImport`: re-validates and refuses to import while errors remain. -/
def handleImport (m : Mapping) (rows : List Row) (ok : Nat → Bool) :
    Option (Nat × Nat × List Payload) :=
  if validateMapping m rows = [] then some (runImport m ok 0 rows) else none

/-! ## CSV export quoting (`handleExport`) -/

/-- The cell serialisation in `handleExport`: quote-and-double when the value
contains a comma or a double quote, else emit the value raw. -/
def escapeCSV (value : Str) : Str :=
  if jsIncludesChar value ',' || jsIncludesChar value '"' then
    '"' :: jsReplaceChar '"' ['"', '"'] value ++ ['"']
  else value

/-- The spec's wording of the escape: "the value with every internal double
quote doubled". -/
def doubleQuotesSpec (value : Str) : Str :=
  value.flatMap fun c => if c = '"' then ['"', '"'] else [c]

/-! ## The sample CSV of the round-trip property -/

/-- The sample file contents. -/
def sampleCSVText : Str :=
  "First Name,Last Name,Email,Phone,Status\nJohn,Doe,john@example.com,(555) 123-4567,active".data

/-- Headers parsed from the sample file. -/
def sampleHeaders : List Str :=
  ["First Name".data, "Last Name".data, "Email".data, "Phone".data, "Status".data]

/-- The single data row parsed from the sample file. -/
def sampleRow : Row :=
  [("First Name".data, "John".data), ("Last Name".data, "Doe".data),
   ("Email".data, "john@example.com".data), ("Phone".data, "(555) 123-4567".data),
   ("Status".data, "active".data)]

/-- The auto-proposed mapping for the sample headers. -/
def sampleMapping : Mapping :=
  [("First Name".data, some "firstName".data), ("Last Name".data, some "lastName".data),
   ("Email".data, some "email".data), ("Phone".data, some "phone".data),
   ("Status".data, some "status".data)]

/-- The payload the sample row imports as. -/
def samplePayload : Payload :=
  { firstName := some "John".data, lastName := some "Doe".data, preferredName := none,
    email := some "john@example.com".data, phone := some "(555) 123-4567".data,
    status := "active".data, fields := [] }

/-! ## Profile-field reordering (`handleReorder`) -/

/-- A profile field definition (the attributes `handleReorder` touches). -/
structure FieldDef where
  _id : Str
  key : Str
  label : Str
  archived : Bool
  orderIndex : Int
deriving DecidableEq

/-- The drag-and-drop splice: remove the item at `src`, reinsert it at `dst`
(`items.splice(src, 1)` followed by `items.splice(dst, 0, item)`). -/
def moveItem (fields : List FieldDef) (src dst : Nat) : List FieldDef :=
  match fields.get? src with
  | none => fields
  | some x => (fields.eraseIdx src).insertIdx dst x

/-- `items.map((item, index) => ({ ...item, orderIndex: index + 1 }))`,
with `n` the index of the first item. -/
def assignOrder : Nat → List FieldDef → List FieldDef
  | _, [] => []
  | n, f :: fs => { f with orderIndex := (n : Int) + 1 } :: assignOrder (n + 1) fs

/-- `handleReorder`: splice the dragged item into place, then rewrite every
orderIndex to position + 1 (one update call per item follows). -/
def handleReorder (fields : List FieldDef) (src dst : Nat) : List FieldDef :=
  assignOrder 0 (moveItem fields src dst)

/-! ## People filtering (`filteredPeople` in `PeopleList.tsx`) -/

/-- A person record (the attributes the filter reads). -/
structure Person where
  firstName : Str
  lastName : Str
  preferredName : Option Str
  email : Option Str
  phone : Option Str
  status : Str
  tagIds : List Str
  fields : List (Str × Str)
deriving DecidableEq

/-- The active filter state: `status` / `tagIds` entries of the `filters`
object plus its dynamic-field entries. -/
structure Filters where
  status : Option Str
  tagIds : List Str
  dynamic : List (Str × Str)
deriving DecidableEq

/-- The search predicate: case-insensitive substring match on first name, last
name, preferred name, email or phone (missing optional fields never match). -/
def matchesSearch (q : Str) (p : Person) : Bool :=
  let query := jsLower q
  jsIncludes (jsLower p.firstName) query
  || jsIncludes (jsLower p.lastName) query
  || (p.preferredName.map fun s => jsIncludes (jsLower s) query).getD false
  || (p.email.map fun s => jsIncludes (jsLower s) query).getD false
  || (p.phone.map fun s => jsIncludes (jsLower s) query).getD false

/-- JS truthiness of `filters.status` (absent or empty is falsy). -/
def statusActive (st : Option Str) : Bool :=
  match st with
  | none => false
  | some s => !s.isEmpty

/-- The dynamic-field loop: `person.fields[key] !== value` fails the person for
every active dynamic entry (keys `status` / `tagIds` are skipped, as are
absent/empty filter values). -/
def dynPass (p : Person) : List (Str × Str) → Bool
  | [] => true
  | (k, v) :: rest =>
    if k ≠ "status".data ∧ k ≠ "tagIds".data ∧ v ≠ [] then
      decide (objGet? p.fields k = some v) && dynPass p rest
    else dynPass p rest

/-- The body of `people.filter(person => ...)` with its early returns. -/
def personFilter (q : Str) (fl : Filters) (p : Person) : Bool :=
  if !q.isEmpty && !matchesSearch q p then false
  else if statusActive fl.status && !(decide (some p.status = fl.status)) then false
  else if decide (0 < fl.tagIds.length) && !(fl.tagIds.any fun t => decide (t ∈ p.tagIds)) then false
  else dynPass p fl.dynamic

/-- `filteredPeople`: the fetched collection filtered in place. -/
def filteredPeople (q : Str) (fl : Filters) (people : List Person) : List Person :=
  people.filter (personFilter q fl)

/-- Claim-side predicate: the person satisfies every active filter. -/
def SatisfiesAll (q : Str) (fl : Filters) (p : Person) : Prop :=
  (q ≠ [] → matchesSearch q p = true)
  ∧ (∀ s, fl.status = some s → s ≠ [] → p.status = s)
  ∧ (fl.tagIds ≠ [] → ∃ t ∈ fl.tagIds, t ∈ p.tagIds)
  ∧ (∀ e ∈ fl.dynamic, e.1 ≠ "status".data → e.1 ≠ "tagIds".data → e.2 ≠ [] →
      objGet? p.fields e.1 = some e.2)

/-! ## Destructive actions (`Tags.tsx`, `HouseholdDetail.tsx`) -/

/-- A mutating entity-client call one of the destructive handlers could issue. -/
inductive EntityCall where
  | personUpdateHousehold (personId : Str) (householdId : Option Str)
  | tagDelete (tagId : Str)
  | householdMemberDelete (memberId : Str)
  | householdMemberUpdate (memberId : Str) (relationship : Str)
deriving DecidableEq

/-- What a UI action handler does: the notification it shows, whether it is a
success notice, the entity-client mutations it issues, whether it re-fetches. -/
structure ActionResult where
  successNotice : Bool
  calls : List EntityCall
  refetch : Bool
deriving DecidableEq

/-- `handleDeleteTag` from `Tags.tsx`: warns and stops when the tag is in use;
otherwise shows success and re-fetches without any delete call. -/
def handleDeleteTag (tagId : Str) (peopleCount : Nat) : ActionResult :=
  if 0 < peopleCount then { successNotice := false, calls := [], refetch := false }
  else { successNotice := true, calls := [], refetch := true }

/-- `handleRemoveMember` from `HouseholdDetail.tsx`: clears the person's
`householdId` via `Person.update` (no `HouseholdMember` delete call exists). -/
def handleRemoveMember (memberId personId : Str) : ActionResult :=
  { successNotice := true, calls := [.personUpdateHousehold personId none], refetch := true }

/-- `handleUpdateRelationship` from `HouseholdDetail.tsx`: success notice and
re-fetch only; no call is issued. -/
def handleUpdateRelationship (memberId newRelationship : Str) : ActionResult :=
  { successNotice := true, calls := [], refetch := true }

/-! ## Auto-mapping precedence (claim side) -/

/-- The auto-mapping patterns in source order: condition on the lower-cased
header, and the target the pattern proposes. -/
def autoPatterns : List ((Str → Bool) × Str) :=
  [(fun lh => jsIncludes lh "first".data && jsIncludes lh "name".data, "firstName".data),
   (fun lh => jsIncludes lh "last".data && jsIncludes lh "name".data, "lastName".data),
   (fun lh => jsIncludes lh "email".data, "email".data),
   (fun lh => jsIncludes lh "phone".data, "phone".data),
   (fun lh => jsIncludes lh "status".data, "status".data)]

/-- The first pattern matching the lower-cased header, if any. -/
def firstMatchTarget (h : Str) : Option Str :=
  (autoPatterns.find? fun pr => pr.1 (jsLower h)).map (·.2)

lemma collapseUnd_head? : ∀ (a : Char) (cs : Str),
    (collapseUnd (a :: cs)).head? = some a := by
  intro a cs
  induction cs generalizing a with
  | nil => rfl
  | cons b cs ih =>
    by_cases h : a = und ∧ b = und
    · rw [collapseUnd, if_pos h, ih b, h.1, h.2]
    · rw [collapseUnd, if_neg h]; rfl

lemma collapseUnd_chain' : ∀ s : Str, NoDoubleUnd (collapseUnd s) := by
  intro s
  induction s with
  | nil => exact List.chain'_nil
  | cons a cs ih =>
    cases cs with
    | nil => exact List.chain'_singleton a
    | cons b cs =>
      by_cases h : a = und ∧ b = und
      · rw [NoDoubleUnd, collapseUnd, if_pos h]; exact ih
      · rw [NoDoubleUnd, collapseUnd, if_neg h]
        rw [List.chain'_cons']
        refine ⟨?_, ih⟩
        intro y hy
        rw [collapseUnd_head? b cs] at hy
        cases hy
        exact h

lemma mem_collapseUnd {c : Char} : ∀ {s : Str}, c ∈ collapseUnd s → c ∈ s := by
  intro s
  induction s with
  | nil => intro h; exact absurd h (List.not_mem_nil c)
  | cons a cs ih =>
    cases cs with
    | nil => intro h; exact h
    | cons b cs =>
      intro h
      by_cases hab : a = und ∧ b = und
      · rw [collapseUnd, if_pos hab] at h
        exact List.mem_cons_of_mem a (ih h)
      · rw [collapseUnd, if_neg hab] at h
        rcases List.mem_cons.mp h with h | h
        · exact h ▸ List.mem_cons_self a _
        · exact List.mem_cons_of_mem a (ih h)

lemma mem_dropHeadUnd {c : Char} {s : Str} (h : c ∈ dropHeadUnd s) : c ∈ s := by
  unfold dropHeadUnd at h
  split at h
  · exact List.mem_of_mem_tail h
  · exact h

lemma mem_trimUnd {c : Char} {s : Str} (h : c ∈ trimUnd s) : c ∈ s := by
  unfold trimUnd at h
  rw [List.mem_reverse] at h
  have h2 := mem_dropHeadUnd h
  rw [List.mem_reverse] at h2
  exact mem_dropHeadUnd h2

lemma noDoubleUnd_reverse {s : Str} (h : NoDoubleUnd s) : NoDoubleUnd s.reverse := by
  rw [NoDoubleUnd, List.chain'_reverse]
  exact h.imp fun a b hab ⟨h1, h2⟩ => hab ⟨h2, h1⟩

lemma dropHeadUnd_chain' {s : Str} (h : NoDoubleUnd s) : NoDoubleUnd (dropHeadUnd s) := by
  unfold dropHeadUnd
  split
  · exact List.Chain'.tail h
  · exact h

lemma dropHeadUnd_head? {s : Str} (h : NoDoubleUnd s) :
    (dropHeadUnd s).head? ≠ some und := by
  unfold dropHeadUnd
  split
  · rename_i heq
    cases s with
    | nil => simp at heq
    | cons a cs =>
      cases cs with
      | nil => simp
      | cons b cs =>
        have hr := List.chain'_cons.mp h
        intro hb
        simp only [List.tail_cons, List.head?_cons, Option.some_inj] at hb
        simp only [List.head?_cons, Option.some_inj] at heq
        exact hr.1 ⟨heq, hb⟩
  · assumption

lemma trimUnd_chain' {s : Str} (h : NoDoubleUnd s) : NoDoubleUnd (trimUnd s) := by
  unfold trimUnd
  exact noDoubleUnd_reverse (dropHeadUnd_chain' (noDoubleUnd_reverse (dropHeadUnd_chain' h)))

lemma dropHeadUnd_getLast?_ne {s : Str} (hlast : s.getLast? ≠ some und) :
    (dropHeadUnd s).getLast? ≠ some und := by
  unfold dropHeadUnd
  split
  · cases s with
    | nil => simp
    | cons a t =>
      cases t with
      | nil => simp
      | cons b t2 =>
        rw [List.getLast?_cons_cons] at hlast
        simpa using hlast
  · exact hlast

lemma trimUnd_head?_ne {s : Str} (h : NoDoubleUnd s) :
    (trimUnd s).head? ≠ some und := by
  unfold trimUnd
  rw [List.head?_reverse]
  apply dropHeadUnd_getLast?_ne
  rw [List.getLast?_reverse]
  exact dropHeadUnd_head? h

lemma trimUnd_getLast?_ne {s : Str} (h : NoDoubleUnd s) :
    (trimUnd s).getLast? ≠ some und := by
  unfold trimUnd
  rw [List.getLast?_reverse]
  exact dropHeadUnd_head? (noDoubleUnd_reverse (dropHeadUnd_chain' h))

lemma mem_replaceNonAlnum {c : Char} {s : Str} (h : c ∈ replaceNonAlnum s) :
    isLowerAlnum c = true ∨ c = und := by
  unfold replaceNonAlnum at h
  rcases List.mem_map.mp h with ⟨x, _, hx⟩
  by_cases hxa : isLowerAlnum x
  · rw [if_pos hxa] at hx; left; rw [← hx]; exact hxa
  · rw [if_neg hxa] at hx; right; exact hx.symm

/-- C3: for every label, `generateKey` yields a key made only of characters in
`[a-z0-9_]` (hence fully lower-case), with no leading underscore, no trailing
underscore, and no two consecutive underscores; on the label "Date of Birth!"
it returns "date_of_birth". -/
theorem generateKey_wellFormed (label : Str) :
    (∀ c ∈ generateKey label, isLowerAlnum c = true ∨ c = und)
    ∧ (generateKey label).head? ≠ some und
    ∧ (generateKey label).getLast? ≠ some und
    ∧ NoDoubleUnd (generateKey label)
    ∧ generateKey ("Date of Birth!".data) = "date_of_birth".data := by
  refine ⟨?_, ?_, ?_, ?_, ?_⟩
  · intro c hc
    exact mem_replaceNonAlnum (mem_collapseUnd (mem_trimUnd hc))
  · exact trimUnd_head?_ne (collapseUnd_chain' _)
  · exact trimUnd_getLast?_ne (collapseUnd_chain' _)
  · exact trimUnd_chain' (collapseUnd_chain' _)
  · decide

lemma entryErrors_eq_nil_iff (n : Nat) (row : Row) (e : Str × Option Str) :
    entryErrors n row e = [] ↔ EntryOK row e := by
  obtain ⟨c, t⟩ := e
  cases t with
  | none => simp [entryErrors, EntryOK]
  | some tf =>
    unfold entryErrors EntryOK
    simp only [List.append_eq_nil]
    constructor
    · rintro ⟨h1, h2⟩
      refine ⟨fun hst => ?_, fun hem hne => ?_⟩
      · replace hst : tf = "status".data := Option.some.inj hst
        by_contra hv
        rw [if_pos ⟨hst, hv⟩] at h1
        exact absurd h1 (by simp)
      · replace hem : tf = "email".data := Option.some.inj hem
        by_contra hv
        have hf : jsIncludesChar (rowGet row c) '@' = false := by
          revert hv; cases jsIncludesChar (rowGet row c) '@' <;> simp
        rw [if_pos ⟨hem, hne, hf⟩] at h2
        exact absurd h2 (by simp)
    · rintro ⟨hs, he⟩
      constructor
      · rw [if_neg]
        rintro ⟨h1, h2⟩
        exact h2 (hs (by rw [h1]))
      · rw [if_neg]
        rintro ⟨h1, h2, h3⟩
        have := he (by rw [h1]) h2
        rw [this] at h3
        cases h3

lemma rowErrors_eq_nil_iff (m : Mapping) (n : Nat) (row : Row) :
    rowErrors m n row = [] ↔ ∀ e ∈ m, EntryOK row e := by
  rw [rowErrors, List.flatMap_eq_nil_iff]
  constructor
  · intro h e he; exact (entryErrors_eq_nil_iff n row e).mp (h e he)
  · intro h e he; exact (entryErrors_eq_nil_iff n row e).mpr (h e he)

lemma rowsErrors_eq_nil_iff (m : Mapping) :
    ∀ (n : Nat) (l : List Row),
      rowsErrors m n l = [] ↔ ∀ row ∈ l, ∀ e ∈ m, EntryOK row e := by
  intro n l
  induction l generalizing n with
  | nil => simp [rowsErrors]
  | cons row rs ih =>
    rw [rowsErrors, List.append_eq_nil, rowErrors_eq_nil_iff, ih (n + 1)]
    simp only [List.forall_mem_cons]

lemma requiredErrors_eq_nil_iff (m : Mapping) :
    requiredErrors m = [] ↔ RequiredMapped m := by
  rw [requiredErrors, List.filterMap_eq_nil_iff]
  constructor
  · intro h f hf hreq
    have := h f (List.mem_filter.mpr ⟨hf, hreq⟩)
    by_contra hk
    rw [if_neg hk] at this
    cases this
  · intro h f hf
    rw [if_pos (h f (List.mem_filter.mp hf).1 (List.mem_filter.mp hf).2)]

lemma mem_rowsErrors_of (m : Mapping) (err : Str) :
    ∀ (n : Nat) (l : List Row) (i : Nat) (row : Row),
      l.get? i = some row → err ∈ rowErrors m (n + i + 1) row →
      err ∈ rowsErrors m n l := by
  intro n l
  induction l generalizing n with
  | nil => intro i row h; simp at h
  | cons r rs ih =>
    intro i row h herr
    cases i with
    | zero =>
      rw [List.get?_cons_zero, Option.some_inj] at h
      subst h
      exact List.mem_append_left _ herr
    | succ j =>
      rw [List.get?_cons_succ] at h
      have hix : n + (j + 1) + 1 = (n + 1) + j + 1 := by omega
      rw [hix] at herr
      exact List.mem_append_right _ (ih (n + 1) j row h herr)

/-- C2: an exported cell containing a comma or double quote is emitted as the
value with internal quotes doubled, wrapped in double quotes; any other cell
is emitted unchanged; "Smith, Jr." is emitted as `"Smith, Jr."`. -/
theorem exportCell_quoting (v : Str) :
    escapeCSV v =
      (if v.contains ',' || v.contains '"'
       then '"' :: doubleQuotesSpec v ++ ['"'] else v)
    ∧ escapeCSV ("Smith, Jr.".data) = "\"Smith, Jr.\"".data := by
  constructor
  · unfold escapeCSV doubleQuotesSpec jsReplaceChar jsIncludesChar
    rfl
  · decide

/-- C1: on the sample CSV, upload parses one data row, auto-mapping sends the
five headers to firstName/lastName/email/phone/status, validation reports no
errors, and import issues exactly one create call with the expected payload
(whatever the create call's outcome). -/
theorem csvImport_roundTrip :
    parseCSV sampleCSVText = some (sampleHeaders, [sampleRow])
    ∧ autoMap sampleHeaders = sampleMapping
    ∧ validateMapping sampleMapping [sampleRow] = []
    ∧ ∀ ok : Nat → Bool,
        (handleImport sampleMapping [sampleRow] ok).map (·.2.2) = some [samplePayload] := by
  refine ⟨by decide, by decide, by decide, ?_⟩
  intro ok
  unfold handleImport
  rw [if_pos (by decide)]
  simp only [runImport]
  cases h : ok 0 <;> simp only [h, if_true, if_false, Option.map_some, Bool.false_eq_true] <;>
    exact congrArg some (congrArg (· :: []) (by decide))

/-- C4: validation looks only at the first 5 data rows; it reports no error
exactly when every required core field is mapped, every status cell holds an
accepted value and every non-empty email cell has an `@`; each violation
contributes its error string (with 1-based row number and offending value);
and while any error remains the import action is blocked. -/
theorem validateMapping_spec (m : Mapping) (rows : List Row) :
    validateMapping m rows = validateMapping m (rows.take 5)
    ∧ (validateMapping m rows = [] ↔ RequiredMapped m ∧ StatusOK m rows ∧ EmailOK m rows)
    ∧ (∀ f ∈ coreFields, f.required = true → ¬ f.key ∈ truthyTargets m →
        reqErr f.label ∈ validateMapping m rows)
    ∧ (∀ i row, (rows.take 5).get? i = some row → ∀ e ∈ m,
        e.2 = some "status".data → ¬ jsLower (rowGet row e.1) ∈ statusVals →
        statusErr (i + 1) (rowGet row e.1) ∈ validateMapping m rows)
    ∧ (∀ i row, (rows.take 5).get? i = some row → ∀ e ∈ m,
        e.2 = some "email".data → rowGet row e.1 ≠ [] →
        jsIncludesChar (rowGet row e.1) '@' = false →
        emailErr (i + 1) (rowGet row e.1) ∈ validateMapping m rows)
    ∧ (∀ ok : Nat → Bool, validateMapping m rows ≠ [] → handleImport m rows ok = none) := by
  refine ⟨?_, ?_, ?_, ?_, ?_, ?_⟩
  · unfold validateMapping
    rw [List.take_take]
    norm_num
  · rw [validateMapping, List.append_eq_nil, requiredErrors_eq_nil_iff,
      rowsErrors_eq_nil_iff]
    constructor
    · rintro ⟨hreq, hrows⟩
      exact ⟨hreq, fun row hr e he => (hrows row hr e he).1,
        fun row hr e he => (hrows row hr e he).2⟩
    · rintro ⟨hreq, hst, hem⟩
      exact ⟨hreq, fun row hr e he => ⟨hst row hr e he, hem row hr e he⟩⟩
  · intro f hf hreq hkey
    apply List.mem_append_left
    rw [requiredErrors]
    exact List.mem_filterMap.mpr
      ⟨f, List.mem_filter.mpr ⟨hf, hreq⟩, by rw [if_neg hkey]⟩
  · intro i row hrow e he hst hval
    apply List.mem_append_right
    apply mem_rowsErrors_of m _ 0 _ i row hrow
    rw [Nat.zero_add]
    apply List.mem_flatMap.mpr
    refine ⟨e, he, ?_⟩
    obtain ⟨c, t⟩ := e
    cases t with
    | none => cases hst
    | some tf =>
      have htf : tf = "status".data := Option.some.inj hst
      unfold entryErrors
      apply List.mem_append_left
      rw [if_pos ⟨htf, hval⟩]
      exact List.mem_singleton.mpr rfl
  · intro i row hrow e he hem hne hat
    apply List.mem_append_right
    apply mem_rowsErrors_of m _ 0 _ i row hrow
    rw [Nat.zero_add]
    apply List.mem_flatMap.mpr
    refine ⟨e, he, ?_⟩
    obtain ⟨c, t⟩ := e
    cases t with
    | none => cases hem
    | some tf =>
      have htf : tf = "email".data := Option.some.inj hem
      unfold entryErrors
      apply List.mem_append_right
      rw [if_pos ⟨htf, hne, hat⟩]
      exact List.mem_singleton.mpr rfl
  · intro ok hne
    rw [handleImport, if_neg hne]

/-! ## Lemmas on the import loop -/

lemma objGet?_objSet_self {α : Type} (o : List (Str × α)) (k : Str) (v : α) :
    objGet? (objSet o k v) k = some v := by
  induction o with
  | nil => simp [objSet, objGet?]
  | cons e rest ih =>
    obtain ⟨k', v'⟩ := e
    by_cases h : k' = k
    · rw [objSet, if_pos h, objGet?, if_pos rfl]
    · rw [objSet, if_neg h, objGet?, if_neg h, ih]

lemma objGet?_objSet_other {α : Type} (o : List (Str × α)) (k : Str) (v : α)
    (k' : Str) (h : k' ≠ k) : objGet? (objSet o k v) k' = objGet? o k' := by
  induction o with
  | nil =>
    simp only [objSet, objGet?]
    rw [if_neg (fun hc => h hc.symm)]
  | cons e rest ih =>
    obtain ⟨k0, v0⟩ := e
    by_cases h0 : k0 = k
    · subst h0
      simp only [objSet, if_pos rfl, objGet?]
      rw [if_neg (fun hc => h hc.symm), if_neg (fun hc => h hc.symm)]
    · simp only [objSet, if_neg h0, objGet?]
      by_cases h1 : k0 = k'
      · rw [if_pos h1, if_pos h1]
      · rw [if_neg h1, if_neg h1]
        exact ih

lemma objGet?_objSet_isSome_mono {α : Type} {o : List (Str × α)} {k' : Str}
    (k : Str) (v : α) (h : (objGet? o k').isSome = true) :
    (objGet? (objSet o k v) k').isSome = true := by
  by_cases hk : k' = k
  · subst hk; rw [objGet?_objSet_self]; rfl
  · rw [objGet?_objSet_other o k v k' hk]; exact h

lemma setCore_fields (pd : Payload) (key v : Str) :
    (setCore pd key v).fields = pd.fields := by
  unfold setCore; split_ifs <;> rfl

lemma setCore_status (pd : Payload) {key : Str} (v : Str)
    (h : key ≠ "status".data) : (setCore pd key v).status = pd.status := by
  unfold setCore
  split_ifs <;> rfl

lemma setCore_firstName (pd : Payload) (key v : Str) :
    (setCore pd key v).firstName = pd.firstName
    ∨ (setCore pd key v).firstName = some v := by
  unfold setCore; split_ifs <;> simp

lemma setCore_lastName (pd : Payload) (key v : Str) :
    (setCore pd key v).lastName = pd.lastName
    ∨ (setCore pd key v).lastName = some v := by
  unfold setCore; split_ifs <;> simp

lemma setCore_preferredName (pd : Payload) (key v : Str) :
    (setCore pd key v).preferredName = pd.preferredName
    ∨ (setCore pd key v).preferredName = some v := by
  unfold setCore; split_ifs <;> simp

lemma setCore_email (pd : Payload) (key v : Str) :
    (setCore pd key v).email = pd.email ∨ (setCore pd key v).email = some v := by
  unfold setCore; split_ifs <;> simp

lemma setCore_phone (pd : Payload) (key v : Str) :
    (setCore pd key v).phone = pd.phone ∨ (setCore pd key v).phone = some v := by
  unfold setCore; split_ifs <;> simp

lemma coreAttrSet_setCore_mono {pd : Payload} {k : Str} (key v : Str)
    (h : coreAttrSet pd k = true) : coreAttrSet (setCore pd key v) k = true := by
  unfold coreAttrSet at h ⊢
  split_ifs at h ⊢ <;>
    first
      | rfl
      | exact h
      | (rcases setCore_firstName pd key v with he | he <;> rw [he] <;> simp [h])
      | (rcases setCore_lastName pd key v with he | he <;> rw [he] <;> simp [h])
      | (rcases setCore_preferredName pd key v with he | he <;> rw [he] <;> simp [h])
      | (rcases setCore_email pd key v with he | he <;> rw [he] <;> simp [h])
      | (rcases setCore_phone pd key v with he | he <;> rw [he] <;> simp [h])

lemma coreAttrSet_setCore_self (pd : Payload) (v tf : Str)
    (h : tf ∈ coreFields.map (·.key)) : coreAttrSet (setCore pd tf v) tf = true := by
  simp only [coreFields, List.map_cons, List.map_nil, List.mem_cons,
    List.not_mem_nil, or_false] at h
  rcases h with h | h | h | h | h | h <;> subst h <;> rfl

lemma applyEntry_none (row : Row) (pd : Payload) (c : Str) :
    applyEntry row pd (c, none) = pd := rfl

lemma applyEntry_some (row : Row) (pd : Payload) (c tf : Str) :
    applyEntry row pd (c, some tf) =
      if tf ∈ coreFields.map (·.key) then setCore pd tf (rowGet row c)
      else { pd with fields := objSet pd.fields tf (rowGet row c) } := rfl

lemma coreAttrSet_fields_update (pd : Payload) (x : List (Str × Str)) (k : Str) :
    coreAttrSet { pd with fields := x } k = coreAttrSet pd k := by
  unfold coreAttrSet; split_ifs <;> rfl

lemma applyEntry_coreAttrSet_mono {pd : Payload} {k : Str} (row : Row)
    (e : Str × Option Str) (h : coreAttrSet pd k = true) :
    coreAttrSet (applyEntry row pd e) k = true := by
  obtain ⟨c, t⟩ := e
  cases t with
  | none => rw [applyEntry_none]; exact h
  | some tf =>
    rw [applyEntry_some]
    split_ifs
    · exact coreAttrSet_setCore_mono tf _ h
    · rw [coreAttrSet_fields_update]; exact h

lemma applyEntry_fieldsGet_mono {pd : Payload} {k : Str} (row : Row)
    (e : Str × Option Str) (h : (objGet? pd.fields k).isSome = true) :
    (objGet? (applyEntry row pd e).fields k).isSome = true := by
  obtain ⟨c, t⟩ := e
  cases t with
  | none => rw [applyEntry_none]; exact h
  | some tf =>
    rw [applyEntry_some]
    split_ifs
    · rw [setCore_fields]; exact h
    · exact objGet?_objSet_isSome_mono tf _ h

lemma foldl_coreAttrSet_mono (row : Row) :
    ∀ (m : Mapping) (pd : Payload) (k : Str), coreAttrSet pd k = true →
      coreAttrSet (m.foldl (applyEntry row) pd) k = true := by
  intro m
  induction m with
  | nil => intro pd k h; exact h
  | cons e m ih =>
    intro pd k h
    exact ih (applyEntry row pd e) k (applyEntry_coreAttrSet_mono row e h)

lemma foldl_fieldsGet_mono (row : Row) :
    ∀ (m : Mapping) (pd : Payload) (k : Str), (objGet? pd.fields k).isSome = true →
      (objGet? (m.foldl (applyEntry row) pd).fields k).isSome = true := by
  intro m
  induction m with
  | nil => intro pd k h; exact h
  | cons e m ih =>
    intro pd k h
    exact ih (applyEntry row pd e) k (applyEntry_fieldsGet_mono row e h)

lemma foldl_applyEntry_status (row : Row) :
    ∀ (m : Mapping) (pd : Payload), (∀ e ∈ m, e.2 ≠ some "status".data) →
      (m.foldl (applyEntry row) pd).status = pd.status := by
  intro m
  induction m with
  | nil => intro pd _; rfl
  | cons e m ih =>
    intro pd h
    rw [List.foldl_cons, ih (applyEntry row pd e) fun e' he' => h e' (List.mem_cons_of_mem e he')]
    obtain ⟨c, t⟩ := e
    cases t with
    | none => rfl
    | some tf =>
      have htf : tf ≠ "status".data := by
        intro hc
        exact h (c, some tf) (List.mem_cons_self _ _) (by rw [hc])
      rw [applyEntry_some]
      split_ifs
      · exact setCore_status pd _ htf
      · rfl

lemma fieldsGet_applyEntry_self (row : Row) (pd : Payload) (c tf : Str)
    (hncore : ¬ tf ∈ coreFields.map (·.key)) :
    objGet? (applyEntry row pd (c, some tf)).fields tf = some (rowGet row c) := by
  rw [applyEntry_some, if_neg hncore]
  exact objGet?_objSet_self pd.fields tf (rowGet row c)

lemma buildPayload_placement (row : Row) :
    ∀ (m : Mapping) (pd : Payload) (e : Str × Option Str), e ∈ m → ∀ tf, e.2 = some tf →
      (tf ∈ coreFields.map (·.key) →
        coreAttrSet (m.foldl (applyEntry row) pd) tf = true)
      ∧ (¬ tf ∈ coreFields.map (·.key) →
        (objGet? (m.foldl (applyEntry row) pd).fields tf).isSome = true) := by
  intro m
  induction m with
  | nil => intro pd e he; exact absurd he (List.not_mem_nil e)
  | cons e0 m ih =>
    intro pd e he tf htf
    rcases List.mem_cons.mp he with he0 | hem
    · subst he0
      obtain ⟨c, t⟩ := e
      change t = some tf at htf
      subst htf
      rw [List.foldl_cons]
      constructor
      · intro hcore
        apply foldl_coreAttrSet_mono
        rw [applyEntry_some, if_pos hcore]
        exact coreAttrSet_setCore_self pd _ tf hcore
      · intro hncore
        apply foldl_fieldsGet_mono
        rw [fieldsGet_applyEntry_self row pd c tf hncore]
        rfl
    · rw [List.foldl_cons]
      exact ih (applyEntry row pd e0) e hem tf htf

lemma runImport_calls (m : Mapping) (ok : Nat → Bool) :
    ∀ (n : Nat) (rows : List Row),
      (runImport m ok n rows).2.2 = rows.map (buildPayload m) := by
  intro n rows
  induction rows generalizing n with
  | nil => rfl
  | cons row rs ih =>
    rw [runImport, List.map_cons, ← ih (n + 1)]
    cases ok n <;> simp

lemma runImport_counts (m : Mapping) (ok : Nat → Bool) :
    ∀ (n : Nat) (rows : List Row),
      (runImport m ok n rows).1
          = ((List.range' n rows.length).filter fun i => ok i).length
      ∧ (runImport m ok n rows).2.1
          = ((List.range' n rows.length).filter fun i => !(ok i)).length := by
  intro n rows
  induction rows generalizing n with
  | nil => exact ⟨rfl, rfl⟩
  | cons row rs ih =>
    rw [runImport, List.length_cons, List.range'_succ]
    obtain ⟨ihs, ihe⟩ := ih (n + 1)
    cases h : ok n <;> simp [h, List.filter_cons, ihs, ihe]

/-- C5: the import loop issues exactly one create call per source row (all
rows, whatever the per-row outcomes `ok`); successes and failures partition
the rows, so one row's failure never stops the rest; core-field targets land
as top-level payload attributes, every other mapped target lands in the
payload's `fields`; and the status attribute is "active" whenever no mapped
column supplies a status. -/
theorem handleImport_rows (m : Mapping) (rows : List Row) (ok : Nat → Bool) :
    (runImport m ok 0 rows).2.2 = rows.map (buildPayload m)
    ∧ (runImport m ok 0 rows).1
        = ((List.range rows.length).filter fun i => ok i).length
    ∧ (runImport m ok 0 rows).2.1
        = ((List.range rows.length).filter fun i => !(ok i)).length
    ∧ (runImport m ok 0 rows).1 + (runImport m ok 0 rows).2.1 = rows.length
    ∧ ((∀ e ∈ m, e.2 ≠ some "status".data) →
        ∀ row, (buildPayload m row).status = "active".data)
    ∧ (∀ row, ∀ e ∈ m, ∀ tf, e.2 = some tf →
        (tf ∈ coreFields.map (·.key) → coreAttrSet (buildPayload m row) tf = true)
        ∧ (¬ tf ∈ coreFields.map (·.key) →
            (objGet? (buildPayload m row).fields tf).isSome = true)) := by
  obtain ⟨hs, he⟩ := runImport_counts m ok 0 rows
  rw [List.range_eq_range']
  refine ⟨runImport_calls m ok 0 rows, hs, he, ?_, ?_, ?_⟩
  · have hp := List.filter_append_perm (fun i => ok i) (List.range' 0 rows.length)
    rw [hs, he, ← List.length_append, hp.length_eq, List.length_range']
  · intro hnost row
    exact foldl_applyEntry_status row m basePayload hnost
  · intro row e he' tf htf
    exact buildPayload_placement row m basePayload e he' tf htf

/-! ## Lemmas on reordering -/

lemma assignOrder_length : ∀ (n : Nat) (l : List FieldDef),
    (assignOrder n l).length = l.length := by
  intro n l
  induction l generalizing n with
  | nil => rfl
  | cons f fs ih => rw [assignOrder, List.length_cons, List.length_cons, ih (n + 1)]

lemma assignOrder_map_orderIndex : ∀ (n : Nat) (l : List FieldDef),
    (assignOrder n l).map (·.orderIndex)
      = (List.range' (n + 1) l.length).map Int.ofNat := by
  intro n l
  induction l generalizing n with
  | nil => rfl
  | cons f fs ih =>
    rw [assignOrder, List.length_cons, List.range'_succ, List.map_cons, List.map_cons,
      ih (n + 1)]
    congr 1

lemma assignOrder_get? : ∀ (n : Nat) (l : List FieldDef) (k : Nat),
    (assignOrder n l).get? k
      = (l.get? k).map fun f => { f with orderIndex := ((n + k : Nat) : Int) + 1 } := by
  intro n l
  induction l generalizing n with
  | nil => intro k; rfl
  | cons f fs ih =>
    intro k
    cases k with
    | zero => rfl
    | succ j =>
      rw [assignOrder, List.get?_cons_succ, List.get?_cons_succ, ih (n + 1) j]
      have : n + (j + 1) = (n + 1) + j := by omega
      rw [this]

lemma moveItem_length (fields : List FieldDef) (src dst : Nat)
    (hs : src < fields.length) (hd : dst < fields.length) :
    (moveItem fields src dst).length = fields.length := by
  unfold moveItem
  rw [List.get?_eq_get hs]
  have h1 : (fields.eraseIdx src).length = fields.length - 1 :=
    List.length_eraseIdx_of_lt hs
  have h2 : dst ≤ (fields.eraseIdx src).length := by omega
  rw [List.length_insertIdx dst _ h2, h1]
  omega

/-- C6: after a reorder of `N` field definitions, the multiset of orderIndex
values is exactly `1..N` in list order (no gaps, no duplicates), and the item
at position `k` of the requested (post-drag) order keeps its data and receives
orderIndex `k + 1`. -/
theorem handleReorder_spec (fields : List FieldDef) (src dst : Nat)
    (hs : src < fields.length) (hd : dst < fields.length) :
    (handleReorder fields src dst).length = fields.length
    ∧ ((handleReorder fields src dst).map (·.orderIndex)
        = (List.range' 1 fields.length).map Int.ofNat)
    ∧ (∀ k item, (moveItem fields src dst).get? k = some item →
        (handleReorder fields src dst).get? k
          = some { item with orderIndex := (k : Int) + 1 }) := by
  have hlen := moveItem_length fields src dst hs hd
  refine ⟨?_, ?_, ?_⟩
  · rw [handleReorder, assignOrder_length, hlen]
  · rw [handleReorder, assignOrder_map_orderIndex, hlen]
  · intro k item hitem
    rw [handleReorder, assignOrder_get? 0 _ k, hitem, Nat.zero_add, Option.map_some']

/-- A concrete two-element reorder exercising `handleReorder_spec`. -/
theorem handleReorder_spec_witness :
    (0 : Nat) < ([⟨"idA".data, "a".data, "A".data, false, 7⟩,
        ⟨"idB".data, "b".data, "B".data, false, 3⟩] : List FieldDef).length
    ∧ (1 : Nat) < ([⟨"idA".data, "a".data, "A".data, false, 7⟩,
        ⟨"idB".data, "b".data, "B".data, false, 3⟩] : List FieldDef).length
    ∧ ((handleReorder [⟨"idA".data, "a".data, "A".data, false, 7⟩,
          ⟨"idB".data, "b".data, "B".data, false, 3⟩] 0 1).length
        = ([⟨"idA".data, "a".data, "A".data, false, 7⟩,
            ⟨"idB".data, "b".data, "B".data, false, 3⟩] : List FieldDef).length
      ∧ ((handleReorder [⟨"idA".data, "a".data, "A".data, false, 7⟩,
            ⟨"idB".data, "b".data, "B".data, false, 3⟩] 0 1).map (·.orderIndex)
          = (List.range' 1 ([⟨"idA".data, "a".data, "A".data, false, 7⟩,
              ⟨"idB".data, "b".data, "B".data, false, 3⟩] : List FieldDef).length).map
              Int.ofNat)
      ∧ (∀ k item,
          (moveItem [⟨"idA".data, "a".data, "A".data, false, 7⟩,
            ⟨"idB".data, "b".data, "B".data, false, 3⟩] 0 1).get? k = some item →
          (handleReorder [⟨"idA".data, "a".data, "A".data, false, 7⟩,
            ⟨"idB".data, "b".data, "B".data, false, 3⟩] 0 1).get? k
            = some { item with orderIndex := (k : Int) + 1 })) :=
  ⟨by decide, by decide,
    handleReorder_spec
      [⟨"idA".data, "a".data, "A".data, false, 7⟩,
       ⟨"idB".data, "b".data, "B".data, false, 3⟩] 0 1 (by decide) (by decide)⟩

/-! ## Lemmas on filtering -/

lemma dynPass_iff (p : Person) : ∀ dyn : List (Str × Str),
    dynPass p dyn = true
    ↔ ∀ e ∈ dyn, e.1 ≠ "status".data → e.1 ≠ "tagIds".data → e.2 ≠ [] →
        objGet? p.fields e.1 = some e.2 := by
  intro dyn
  induction dyn with
  | nil => simp [dynPass]
  | cons e rest ih =>
    obtain ⟨k, v⟩ := e
    by_cases hg : k ≠ "status".data ∧ k ≠ "tagIds".data ∧ v ≠ []
    · have hstep : dynPass p ((k, v) :: rest)
          = (decide (objGet? p.fields k = some v) && dynPass p rest) := by
        show (if k ≠ "status".data ∧ k ≠ "tagIds".data ∧ v ≠ []
              then decide (objGet? p.fields k = some v) && dynPass p rest
              else dynPass p rest) = _
        rw [if_pos hg]
      rw [hstep, Bool.and_eq_true, ih]
      simp only [List.forall_mem_cons]
      constructor
      · rintro ⟨h1, h2⟩
        exact ⟨fun _ _ _ => of_decide_eq_true h1, h2⟩
      · rintro ⟨h1, h2⟩
        exact ⟨decide_eq_true (h1 hg.1 hg.2.1 hg.2.2), h2⟩
    · have hstep : dynPass p ((k, v) :: rest) = dynPass p rest := by
        show (if k ≠ "status".data ∧ k ≠ "tagIds".data ∧ v ≠ []
              then decide (objGet? p.fields k = some v) && dynPass p rest
              else dynPass p rest) = _
        rw [if_neg hg]
      rw [hstep, ih]
      simp only [List.forall_mem_cons]
      constructor
      · intro h2
        refine ⟨fun hk1 hk2 hv => absurd ⟨hk1, hk2, hv⟩ hg, h2⟩
      · rintro ⟨_, h2⟩
        exact h2

lemma personFilter_iff (q : Str) (fl : Filters) (p : Person) :
    personFilter q fl p = true ↔ SatisfiesAll q fl p := by
  unfold personFilter
  by_cases h1 : (!q.isEmpty && !matchesSearch q p) = true
  · rw [if_pos h1]
    simp only [Bool.and_eq_true, Bool.not_eq_true'] at h1
    obtain ⟨h1a, h1b⟩ := h1
    constructor
    · intro hf; exact absurd hf Bool.false_ne_true
    · rintro ⟨hA, _⟩
      have hq : q ≠ [] := by
        intro hq
        rw [hq] at h1a
        exact absurd h1a (by simp)
      rw [hA hq] at h1b
      exact absurd h1b (by simp)
  · rw [if_neg h1]
    have hA : q ≠ [] → matchesSearch q p = true := by
      intro hq
      by_contra hm
      apply h1
      simp only [Bool.and_eq_true, Bool.not_eq_true']
      refine ⟨?_, ?_⟩
      · cases q with
        | nil => exact absurd rfl hq
        | cons a t => rfl
      · revert hm; cases matchesSearch q p <;> simp
    by_cases h2 : (statusActive fl.status && !(decide (some p.status = fl.status))) = true
    · rw [if_pos h2]
      simp only [Bool.and_eq_true, Bool.not_eq_true'] at h2
      obtain ⟨h2a, h2b⟩ := h2
      constructor
      · intro hf; exact absurd hf Bool.false_ne_true
      · rintro ⟨_, hB, _⟩
        obtain ⟨s, hs, hsne⟩ : ∃ s, fl.status = some s ∧ s ≠ [] := by
          cases hst : fl.status with
          | none => rw [hst] at h2a; exact absurd h2a (by simp [statusActive])
          | some s =>
            refine ⟨s, rfl, ?_⟩
            rw [hst] at h2a
            intro hse
            subst hse
            exact absurd h2a (by simp [statusActive])
        rw [hB s hs hsne, hs] at h2b
        simp at h2b
    · rw [if_neg h2]
      have hB : ∀ s, fl.status = some s → s ≠ [] → p.status = s := by
        intro s hs hsne
        by_contra hps
        apply h2
        simp only [Bool.and_eq_true, Bool.not_eq_true']
        refine ⟨?_, ?_⟩
        · rw [hs]
          cases s with
          | nil => exact absurd rfl hsne
          | cons a t => rfl
        · rw [hs]
          exact decide_eq_false fun hc => hps (Option.some.inj hc)
      by_cases h3 : (decide (0 < fl.tagIds.length)
          && !(fl.tagIds.any fun t => decide (t ∈ p.tagIds))) = true
      · rw [if_pos h3]
        simp only [Bool.and_eq_true, Bool.not_eq_true'] at h3
        obtain ⟨h3a, h3b⟩ := h3
        constructor
        · intro hf; exact absurd hf Bool.false_ne_true
        · rintro ⟨_, _, hC, _⟩
          have hlen : fl.tagIds ≠ [] := by
            intro he
            rw [he] at h3a
            simp at h3a
          obtain ⟨t, ht, htp⟩ := hC hlen
          rw [List.any_eq_false] at h3b
          exact absurd (decide_eq_true htp) (h3b t ht)
      · rw [if_neg h3]
        have hC : fl.tagIds ≠ [] → ∃ t ∈ fl.tagIds, t ∈ p.tagIds := by
          intro hne
          by_contra hno
          push_neg at hno
          apply h3
          simp only [Bool.and_eq_true, Bool.not_eq_true']
          refine ⟨?_, ?_⟩
          · apply decide_eq_true
            cases htg : fl.tagIds with
            | nil => exact absurd htg hne
            | cons a t => simp
          · rw [List.any_eq_false]
            intro t ht
            exact fun hc => hno t ht (of_decide_eq_true hc)
        rw [dynPass_iff]
        unfold SatisfiesAll
        constructor
        · intro hD; exact ⟨hA, hB, hC, hD⟩
        · rintro ⟨_, _, _, hD⟩; exact hD

/-- C7: a person is in the filtered collection iff it is in the fetched
collection and satisfies every active predicate (search, status equality, tag
intersection, and each active dynamic-field equality); with no active filter
the result is the full collection in its original order. -/
theorem filteredPeople_spec (q : Str) (fl : Filters) (people : List Person) :
    (∀ p, p ∈ filteredPeople q fl people ↔ p ∈ people ∧ SatisfiesAll q fl p)
    ∧ (q = [] → statusActive fl.status = false → fl.tagIds = [] →
        (∀ e ∈ fl.dynamic, e.2 = []) → filteredPeople q fl people = people) := by
  constructor
  · intro p
    rw [filteredPeople, List.mem_filter, personFilter_iff]
  · intro hq hst htg hdy
    rw [filteredPeople, List.filter_eq_self]
    intro p _
    rw [personFilter_iff]
    refine ⟨fun hne => absurd hq hne, ?_, fun hne => absurd htg hne, ?_⟩
    · intro s hs hsne
      rw [hs] at hst
      cases s with
      | nil => exact absurd rfl hsne
      | cons a t => exact absurd hst (by simp [statusActive])
    · intro e he _ _ hv
      exact absurd (hdy e he) hv

/-! ## Lemmas on row building -/

lemma buildRowAux_isSome (values : List Str) :
    ∀ (hs : List Str) (i : Nat) (o : Row) (k : Str),
      (k ∈ hs ∨ (objGet? o k).isSome = true) →
      (objGet? (buildRowAux values i o hs) k).isSome = true := by
  intro hs
  induction hs with
  | nil =>
    intro i o k hk
    rcases hk with hk | hk
    · exact absurd hk (List.not_mem_nil k)
    · exact hk
  | cons hd tl ih =>
    intro i o k hk
    apply ih (i + 1)
    rcases hk with hm | ho
    · rcases List.mem_cons.mp hm with he | hm
      · right; subst he; rw [objGet?_objSet_self]; rfl
      · left; exact hm
    · right; exact objGet?_objSet_isSome_mono hd _ ho

lemma buildRowAux_not_mem (values : List Str) :
    ∀ (hs : List Str) (i : Nat) (o : Row) (k : Str), ¬ k ∈ hs →
      objGet? (buildRowAux values i o hs) k = objGet? o k := by
  intro hs
  induction hs with
  | nil => intro i o k _; rfl
  | cons hd tl ih =>
    intro i o k hk
    rw [buildRowAux, ih (i + 1) _ k fun hm => hk (List.mem_cons_of_mem hd hm)]
    exact objGet?_objSet_other o hd _ k fun he => hk (he ▸ List.mem_cons_self hd tl)

lemma buildRowAux_get_nodup (values : List Str) :
    ∀ (hs : List Str) (i : Nat) (o : Row) (j : Nat) (k : Str),
      hs.Nodup → hs.get? j = some k →
      objGet? (buildRowAux values i o hs) k = some (values.getD (i + j) []) := by
  intro hs
  induction hs with
  | nil => intro i o j k _ hj; cases hj
  | cons hd tl ih =>
    intro i o j k hnd hj
    cases j with
    | zero =>
      rw [List.get?_cons_zero, Option.some_inj] at hj
      subst hj
      rw [buildRowAux,
        buildRowAux_not_mem values tl (i + 1) _ _ (List.nodup_cons.mp hnd).1,
        objGet?_objSet_self]
      rfl
    | succ j' =>
      rw [List.get?_cons_succ] at hj
      have hix : i + (j' + 1) = (i + 1) + j' := by omega
      rw [buildRowAux, hix]
      exact ih (i + 1) _ j' k (List.nodup_cons.mp hnd).2 hj

/-- C9: a parsed data row binds every header to a string: lookups of headers
never yield `undefined`, the cell for the header at index `i` is the `i`-th
value with the empty string as the fallback, and in particular every header
beyond the end of a short line is bound to the empty string. -/
theorem buildRow_total (headers values : List Str) :
    (∀ h ∈ headers, (objGet? (buildRow headers values) h).isSome = true)
    ∧ (headers.Nodup → ∀ i h', headers.get? i = some h' →
        objGet? (buildRow headers values) h' = some (values.getD i []))
    ∧ (headers.Nodup → ∀ i h', headers.get? i = some h' → values.length ≤ i →
        objGet? (buildRow headers values) h' = some []) := by
  refine ⟨?_, ?_, ?_⟩
  · intro h hm
    exact buildRowAux_isSome values headers 0 [] h (Or.inl hm)
  · intro hnd i h' hi
    have hg := buildRowAux_get_nodup values headers 0 [] i h' hnd hi
    rwa [Nat.zero_add] at hg
  · intro hnd i h' hi hlen
    have hg := buildRowAux_get_nodup values headers 0 [] i h' hnd hi
    rwa [Nat.zero_add, List.getD_eq_default _ _ hlen] at hg

/-! ## Auto-mapping precedence and destructive actions -/

/-- C10: the auto-mapping target for a header is the first matching pattern of
the fixed-precedence list firstName, lastName, email, phone, status (so a
header containing both "email" and "phone" maps to email), and a header
matching no pattern stays unmapped. -/
theorem autoTarget_precedence (h : Str) :
    autoTarget h = firstMatchTarget h
    ∧ autoTarget ("Email Phone".data) = some "email".data
    ∧ autoTarget ("Donor".data) = none := by
  refine ⟨?_, by decide, by decide⟩
  unfold autoTarget firstMatchTarget autoPatterns
  by_cases b1 : (jsIncludes (jsLower h) "first".data
      && jsIncludes (jsLower h) "name".data) = true
  · rw [if_pos b1]
    simp [List.find?, b1]
  · rw [if_neg b1]
    have b1f : (jsIncludes (jsLower h) "first".data
        && jsIncludes (jsLower h) "name".data) = false := by
      revert b1
      cases jsIncludes (jsLower h) "first".data && jsIncludes (jsLower h) "name".data <;> simp
    by_cases b2 : (jsIncludes (jsLower h) "last".data
        && jsIncludes (jsLower h) "name".data) = true
    · rw [if_pos b2]
      simp [List.find?, b1f, b2]
    · rw [if_neg b2]
      have b2f : (jsIncludes (jsLower h) "last".data
          && jsIncludes (jsLower h) "name".data) = false := by
        revert b2
        cases jsIncludes (jsLower h) "last".data && jsIncludes (jsLower h) "name".data <;> simp
      by_cases b3 : jsIncludes (jsLower h) "email".data = true
      · rw [if_pos b3]
        simp [List.find?, b1f, b2f, b3]
      · rw [if_neg b3]
        have b3f : jsIncludes (jsLower h) "email".data = false := by
          revert b3
          cases jsIncludes (jsLower h) "email".data <;> simp
        by_cases b4 : jsIncludes (jsLower h) "phone".data = true
        · rw [if_pos b4]
          simp [List.find?, b1f, b2f, b3f, b4]
        · rw [if_neg b4]
          have b4f : jsIncludes (jsLower h) "phone".data = false := by
            revert b4
            cases jsIncludes (jsLower h) "phone".data <;> simp
          by_cases b5 : jsIncludes (jsLower h) "status".data = true
          · rw [if_pos b5]
            simp [List.find?, b1f, b2f, b3f, b4f, b5]
          · rw [if_neg b5]
            have b5f : jsIncludes (jsLower h) "status".data = false := by
              revert b5
              cases jsIncludes (jsLower h) "status".data <;> simp
            simp [List.find?, b1f, b2f, b3f, b4f, b5f]

/-- C8 counterexample: household-member removal does issue a mutating
entity-client call (`Person.update(personId, { householdId: null })`), so the
claim that none of the three destructive actions issues one is false. -/
theorem handleRemoveMember_counterexample :
    ¬ (handleRemoveMember ("m1".data) ("p1".data)).calls = [] := by
  decide

/-- C8 amended: tag deletion (when the tag is unused) and relationship update
show a success notification and re-fetch with no mutating call at all;
household-member removal shows a success notification and re-fetches, deletes
no HouseholdMember record, but does issue exactly one mutating call — the
`Person.update` clearing the person's householdId. -/
theorem deadDestructiveActions (tagId memberId personId newRelationship : Str) :
    ((handleDeleteTag tagId 0).successNotice = true
      ∧ (handleDeleteTag tagId 0).refetch = true
      ∧ (handleDeleteTag tagId 0).calls = [])
    ∧ ((handleUpdateRelationship memberId newRelationship).successNotice = true
      ∧ (handleUpdateRelationship memberId newRelationship).refetch = true
      ∧ (handleUpdateRelationship memberId newRelationship).calls = [])
    ∧ ((handleRemoveMember memberId personId).successNotice = true
      ∧ (handleRemoveMember memberId personId).refetch = true
      ∧ (handleRemoveMember memberId personId).calls
          = [EntityCall.personUpdateHousehold personId none]) :=
  ⟨⟨rfl, rfl, rfl⟩, ⟨rfl, rfl, rfl⟩, ⟨rfl, rfl, rfl⟩⟩

end Console
